import Mathlib

/-!
# Verification of the slice-rotation core of a Rubik's-cube simulator

Shallow embedding of the simulator's core (`src/cube.rs`, `src/cubie.rs`,
`src/rotation.rs`, `src/main.rs`).  `f32` values are idealized as rationals
(`ℚ`); every decimal literal of the source is the corresponding exact
rational.  `FRAC_PI_2` is modelled by the exact value of the `f32` constant
`std::f32::consts::FRAC_PI_2` (13176795 / 2^23); the development only uses
that it is positive.

External-library (bevy / glam) operations used by the core fall in two
groups:
* pure polynomial quaternion/vector arithmetic (`Quat::mul_quat`,
  `Quat::mul_vec3`, `Transform::rotate_around`, dot products) is embedded
  concretely, following glam's formulas;
* transcendental operations (`Quat::from_axis_angle`, `Quat::to_euler`,
  `Quat::from_euler`) are parameters of the model, bundled in
  `ExternalMath`: the repository's own logic is quantified over them.

The bevy `Timer` (repeating mode, as used with a 0.5 s period) is embedded
concretely following bevy's documented `tick` semantics.
-/

namespace Rubiks

/-- A 3-vector over `ℚ`, modelling glam's `Vec3`. -/
structure Vec3 where
  x : ℚ
  y : ℚ
  z : ℚ
deriving DecidableEq, Repr

/-- Componentwise addition. -/
def Vec3.add (a b : Vec3) : Vec3 := ⟨a.x + b.x, a.y + b.y, a.z + b.z⟩

/-- Componentwise subtraction. -/
def Vec3.sub (a b : Vec3) : Vec3 := ⟨a.x - b.x, a.y - b.y, a.z - b.z⟩

/-- Componentwise negation. -/
def Vec3.neg (a : Vec3) : Vec3 := ⟨-a.x, -a.y, -a.z⟩

instance : Add Vec3 := ⟨Vec3.add⟩

instance : Sub Vec3 := ⟨Vec3.sub⟩

instance : Neg Vec3 := ⟨Vec3.neg⟩

/-- Scalar multiplication of a `Vec3`. -/
def Vec3.scale (k : ℚ) (a : Vec3) : Vec3 := ⟨k * a.x, k * a.y, k * a.z⟩

/-- glam `Vec3::dot`. -/
def Vec3.dot (a b : Vec3) : ℚ := a.x * b.x + a.y * b.y + a.z * b.z

/-- glam `Vec3::cross`. -/
def Vec3.cross (a b : Vec3) : Vec3 :=
  ⟨a.y * b.z - a.z * b.y, a.z * b.x - a.x * b.z, a.x * b.y - a.y * b.x⟩

/-- glam `Vec3::X`. -/
def Vec3.unitX : Vec3 := ⟨1, 0, 0⟩

/-- glam `Vec3::Y`. -/
def Vec3.unitY : Vec3 := ⟨0, 1, 0⟩

/-- glam `Vec3::Z`. -/
def Vec3.unitZ : Vec3 := ⟨0, 0, 1⟩

/-- A quaternion over `ℚ`, modelling glam's `Quat` (fields `x y z w`). -/
structure Quat where
  x : ℚ
  y : ℚ
  z : ℚ
  w : ℚ
deriving DecidableEq, Repr

/-- glam `Quat::IDENTITY`. -/
def Quat.identity : Quat := ⟨0, 0, 0, 1⟩

/-- glam `Quat::mul_quat` (the Hamilton product). -/
def Quat.mul (a b : Quat) : Quat :=
  ⟨a.w * b.x + a.x * b.w + a.y * b.z - a.z * b.y,
   a.w * b.y - a.x * b.z + a.y * b.w + a.z * b.x,
   a.w * b.z + a.x * b.y - a.y * b.x + a.z * b.w,
   a.w * b.w - a.x * b.x - a.y * b.y - a.z * b.z⟩

/-- glam `Quat::mul_vec3`:
`v * (w*w - b·b) + b * (v·b * 2) + (b × v) * (w * 2)` where `b = (x,y,z)`. -/
def Quat.mulVec3 (q : Quat) (v : Vec3) : Vec3 :=
  let b : Vec3 := ⟨q.x, q.y, q.z⟩
  Vec3.scale (q.w * q.w - b.dot b) v + Vec3.scale (v.dot b * 2) b +
    Vec3.scale (q.w * 2) (b.cross v)

/-- The value of the `f32` constant `std::f32::consts::FRAC_PI_2`
(`π/2` rounded to the nearest `f32`): `13176795 / 2^23`. -/
def ONE_ROTATION_RADIANS : ℚ := 13176795 / 8388608

/-- `rotation.rs`: `ROTATION_SPEED`. -/
def ROTATION_SPEED : ℚ := 2

/-- `cube.rs`: the `Face` enum (6 flat faces and 2 centre slices). -/
inductive Face where
  | Top
  | Bottom
  | Left
  | Right
  | Front
  | Back
  | HorizontalCentre
  | VerticalCentre
deriving DecidableEq, Repr, Fintype

/-- `cube.rs`: `Face::is_center`. -/
def Face.is_center : Face → Bool
  | .HorizontalCentre | .VerticalCentre => true
  | _ => false

/-- `cube.rs`: `Face::flat_faces`. -/
def Face.flat_faces : List Face :=
  [.Top, .Bottom, .Left, .Right, .Front, .Back]

/-- `cube.rs`: `Face::normal`. -/
def Face.normal : Face → Vec3
  | .Top => Vec3.unitY
  | .Bottom => -Vec3.unitY
  | .Left => -Vec3.unitX
  | .Right => Vec3.unitX
  | .Front => Vec3.unitZ
  | .Back => -Vec3.unitZ
  | .HorizontalCentre => Vec3.unitY
  | .VerticalCentre => Vec3.unitX

/-- `cube.rs`: `<StandardUniform as Distribution<Face>>::sample`; the
match on `rng.random_range(0..8)` (the default arm catches `0`). -/
def Face.sample : Fin 8 → Face
  | 1 => .Top
  | 2 => .Bottom
  | 3 => .Left
  | 4 => .Right
  | 5 => .Front
  | 6 => .Back
  | 7 => .HorizontalCentre
  | _ => .VerticalCentre

/-- `rotation.rs`: the `Direction` enum. -/
inductive Direction where
  | Forward
  | Backward
deriving DecidableEq, Repr, Fintype

/-- `rotation.rs`: `Direction::signum`. -/
def Direction.signum : Direction → ℚ
  | .Forward => 1
  | .Backward => -1

/-- `rotation.rs`: `<StandardUniform as Distribution<Direction>>::sample`;
the match on `rng.random_range(0..2)` (the default arm catches `0`). -/
def Direction.sample : Fin 2 → Direction
  | 1 => .Forward
  | _ => .Backward

/-- `cubie.rs`: the `Kind` enum classifying cubies. -/
inductive Kind where
  | Centre
  | Corner
  | Edge
deriving DecidableEq, Repr

/-- `cubie.rs`: `Kind::from_coordinates` (the `i8` coordinates are
modelled as integers). -/
def Kind.from_coordinates (x y z : ℤ) : Option Kind :=
  let abs_sum := |x| + |y| + |z|
  if x = 0 ∧ y = 0 ∧ z = 0 then
    none
  else if abs_sum = 1 then
    some .Centre
  else if |x| = |y| ∧ |x| = |z| then
    some .Corner
  else
    some .Edge

/-- `cubie.rs`: `CUBIE_FACE_OFFSET`. -/
def CUBIE_FACE_OFFSET : ℚ := 49 / 100

/-- Rust `f32::signum` on the idealized rationals: `1` for positive
arguments and `+0.0`, `-1` for negative ones (the model has no `-0.0`
and no NaN). -/
def rustSignum (q : ℚ) : ℚ := if q < 0 then -1 else 1

/-- Rust `f32::round` (round half away from zero), landing in `ℤ`. -/
def rustRound (q : ℚ) : ℤ := if 0 ≤ q then ⌊q + 1 / 2⌋ else -⌊-q + 1 / 2⌋

/-- bevy `Transform`, restricted to the fields the core reads or writes
(`scale` is never touched). -/
structure Transform where
  translation : Vec3
  rotation : Quat
deriving DecidableEq, Repr

/-- The transcendental external-library operations the core calls.  Their
implementations (glam) are outside the repository; the development is
parameterized over them. -/
structure ExternalMath where
  /-- glam `Quat::from_axis_angle`. -/
  fromAxisAngle : Vec3 → ℚ → Quat
  /-- glam `Quat::to_euler(EulerRot::XYZ)`. -/
  toEuler : Quat → ℚ × ℚ × ℚ
  /-- glam `Quat::from_euler(EulerRot::XYZ)`. -/
  fromEuler : ℚ × ℚ × ℚ → Quat

/-- bevy `Transform::rotate_around(point, rotation)`:
`translation := point + rotation * (translation - point)`;
`rotation := rotation * self.rotation`. -/
def Transform.rotate_around (t : Transform) (point : Vec3) (q : Quat) : Transform :=
  { translation := point + q.mulVec3 (t.translation - point)
    rotation := q.mul t.rotation }

/-- `rotation.rs`: `should_rotate_cubie`. -/
def should_rotate_cubie (translation : Vec3) (axis : Vec3) (is_center_slice : Bool) : Bool :=
  if is_center_slice then
    let dot := translation.dot axis
    decide (dot ≤ 1 / 2) && decide (0 ≤ dot)
  else
    decide (translation.dot axis ≥ 1)

/-- `rotation.rs`: the closure mapped over the coordinates in
`snapped_translation`: magnitude below `0.5` becomes `0`, anything else
its `signum`. -/
def snap_coordinate (coordinate : ℚ) : ℚ :=
  if |coordinate| < 1 / 2 then 0 else rustSignum coordinate

/-- `rotation.rs`: `snapped_translation` (`Vec3::map` of the closure). -/
def snapped_translation (translation : Vec3) : Vec3 :=
  ⟨snap_coordinate translation.x, snap_coordinate translation.y,
    snap_coordinate translation.z⟩

/-- `rotation.rs`: the per-angle rounding inside `snapped_rotation`:
`(a / step).round() * step` with `step = FRAC_PI_2`. -/
def round_to_quarter (a : ℚ) : ℚ :=
  rustRound (a / ONE_ROTATION_RADIANS) * ONE_ROTATION_RADIANS

/-- `rotation.rs`: `snapped_rotation` (convert to XYZ Euler angles, round
each to the nearest multiple of `FRAC_PI_2`, reconstruct). -/
def snapped_rotation (ext : ExternalMath) (rotation : Quat) : Quat :=
  let e := ext.toEuler rotation
  ext.fromEuler (round_to_quarter e.1, round_to_quarter e.2.1, round_to_quarter e.2.2)

/-- `rotation.rs`: `snap_cubie_to_grid`. -/
def snap_cubie_to_grid (ext : ExternalMath) (cubie : Transform) : Transform :=
  { translation := snapped_translation cubie.translation
    rotation := snapped_rotation ext cubie.rotation }

/-- `rotation.rs`: the `Rotation` struct (a face plus a direction). -/
structure Move where
  face : Face
  direction : Direction
deriving DecidableEq, Repr

/-- `rotation.rs`: `Rotation::random`, with the two uniform draws made
explicit (`rng.random_range(0..2)` for the direction,
`rng.random_range(0..8)` for the face). -/
def Move.random (f : Fin 8) (d : Fin 2) : Move :=
  ⟨Face.sample f, Direction.sample d⟩

/-- `rotation.rs`: the `Rotations` resource (scheduler state). -/
structure Rotations where
  current : Option Move
  current_remaining : ℚ
  queue : List Move
deriving DecidableEq, Repr

namespace Rotations

/-- `rotation.rs`: `Rotations::new`. -/
def new (in_progress : Option Move) (queue : List Move) : Rotations :=
  let current_remaining :=
    match in_progress with
    | some r => ONE_ROTATION_RADIANS * r.direction.signum
    | none => 0
  { current := in_progress, current_remaining, queue }

/-- `rotation.rs`: `Rotations::progress_current_rotation`. -/
def progress_current_rotation (s : Rotations) (progress : ℚ) : Rotations :=
  { s with current_remaining := s.current_remaining - progress }

/-- `rotation.rs`: `Rotations::is_queue_empty`. -/
def is_queue_empty (s : Rotations) : Bool := s.queue.isEmpty

/-- `rotation.rs`: `Rotations::enqueue` (push at the back). -/
def enqueue (s : Rotations) (rotation : Move) : Rotations :=
  { s with queue := s.queue ++ [rotation] }

/-- `rotation.rs`: `Rotations::load_next_rotation` (pop the front of the
queue into `current`; reset the remaining angle only if a move was
popped). -/
def load_next_rotation (s : Rotations) : Rotations :=
  let current := s.queue.head?
  let queue := s.queue.tail
  match current with
  | some rotation =>
    { current, queue
      current_remaining := ONE_ROTATION_RADIANS * rotation.direction.signum }
  | none => { current, queue, current_remaining := s.current_remaining }

end Rotations

/-- bevy `Timer` in `TimerMode::Repeating`, restricted to the fields the
core reads (`elapsed`, the stored `finished` flag,
`times_finished_this_tick`); durations and deltas are rationals. -/
structure Timer where
  duration : ℚ
  elapsed : ℚ
  finished : Bool
  times_finished_this_tick : ℕ
deriving DecidableEq, Repr

namespace Timer

/-- bevy `Timer::from_seconds` (fresh timer: nothing elapsed, not
finished). -/
def from_seconds (duration : ℚ) : Timer :=
  { duration, elapsed := 0, finished := false, times_finished_this_tick := 0 }

/-- bevy `Timer::tick(delta)` for a repeating timer with positive
duration: add the delta; the timer is finished exactly when the new
elapsed time reaches the duration, in which case the elapsed time wraps
modulo the duration and `times_finished_this_tick` counts the wraps. -/
def tick (t : Timer) (delta : ℚ) : Timer :=
  let elapsed := t.elapsed + delta
  if t.duration ≤ elapsed then
    let times := (⌊elapsed / t.duration⌋).toNat
    { t with
        elapsed := elapsed - t.duration * times
        finished := true
        times_finished_this_tick := times }
  else
    { t with elapsed, finished := false, times_finished_this_tick := 0 }

/-- bevy `Timer::just_finished`. -/
def just_finished (t : Timer) : Bool := decide (0 < t.times_finished_this_tick)

end Timer

/-- `rotation.rs`, `apply_rotations`: the angular step
`(ONE_ROTATION_RADIANS * delta * ROTATION_SPEED).min(remaining.abs()) * remaining.signum()`. -/
def rotation_step (remaining delta : ℚ) : ℚ :=
  min (ONE_ROTATION_RADIANS * delta * ROTATION_SPEED) |remaining| * rustSignum remaining

/-- `rotation.rs`, `apply_rotations`, first half (lines 127–147): if a
move is current, rotate every eligible cubie about the face normal by the
step, snapping it in the same pass when `current_remaining == step`, then
subtract the step from the remaining angle. -/
def apply_rotation_stage (ext : ExternalMath) (delta : ℚ) (s : Rotations)
    (cubies : List Transform) : Rotations × List Transform :=
  match s.current with
  | none => (s, cubies)
  | some current_rotation =>
    let face_normal := current_rotation.face.normal
    let is_center_slice := current_rotation.face.is_center
    let step := rotation_step s.current_remaining delta
    let cubies := cubies.map fun cubie =>
      if should_rotate_cubie cubie.translation face_normal is_center_slice then
        let rotated := cubie.rotate_around face_normal (ext.fromAxisAngle face_normal step)
        if s.current_remaining = step then snap_cubie_to_grid ext rotated else rotated
      else cubie
    (s.progress_current_rotation step, cubies)

/-- `rotation.rs`, `apply_rotations`, second half (lines 149–155): thanks
to `&&` short-circuiting, the timer is ticked only when the remaining
angle is `0`; the next move is loaded when additionally the timer just
finished and the queue is non-empty. -/
def load_stage (delta : ℚ) (timer : Timer) (s : Rotations) : Timer × Rotations :=
  if s.current_remaining = 0 then
    let timer := timer.tick delta
    if timer.just_finished && !s.is_queue_empty then
      (timer, s.load_next_rotation)
    else
      (timer, s)
  else
    (timer, s)

/-- The scheduler-side state touched by one frame of `apply_rotations`:
the `RotationTimer` resource and the `Rotations` resource. -/
structure World where
  timer : Timer
  rotations : Rotations
deriving DecidableEq, Repr

/-- `rotation.rs`: the full `apply_rotations` system for one tick with
frame delta `delta`. -/
def apply_rotations (ext : ExternalMath) (delta : ℚ) (w : World)
    (cubies : List Transform) : World × List Transform :=
  let (rots, cubies) := apply_rotation_stage ext delta w.rotations cubies
  let (timer, rots) := load_stage delta w.timer rots
  (⟨timer, rots⟩, cubies)

/-- The scheduler/timer evolution of `apply_rotations`, which does not
depend on the external math nor on the cubie transforms
(see `apply_rotations_world_tick`). -/
def world_tick (delta : ℚ) (w : World) : World :=
  let rots :=
    match w.rotations.current with
    | none => w.rotations
    | some _ =>
      w.rotations.progress_current_rotation
        (rotation_step w.rotations.current_remaining delta)
  let (timer, rots) := load_stage delta w.timer rots
  ⟨timer, rots⟩

/-- `main.rs`: `setup` inserts `RotationTimer::new()` (a repeating 0.5 s
timer) and `Rotations::new(None, VecDeque::new())`. -/
def initial_world : World :=
  ⟨Timer.from_seconds (1 / 2), Rotations.new none []⟩

/-- The scheduler states reachable in the program: from the initial
resources, by enqueueing moves (UI buttons and the shuffle driver both
only call `Rotations::enqueue`) and by ticks of `apply_rotations` with a
non-negative frame delta. -/
inductive Reachable : World → Prop where
  | init : Reachable initial_world
  | enqueue (r : Move) {w : World} :
      Reachable w → Reachable ⟨w.timer, w.rotations.enqueue r⟩
  | tick (delta : ℚ) (hdelta : 0 ≤ delta) {w : World} :
      Reachable w → Reachable (world_tick delta w)

section SolvedDetector

/-! ## Solved-state detector (`cube.rs`)

A sticker (`CubieFace` entity) is modelled by its world position together
with the base color of its resolved material; colors live in an arbitrary
type with decidable equality (the code compares `Color` values with `!=`).
The `Assets<StandardMaterial>` lookup is modelled as always resolving, as
it does for the materials created in `spawn_cubies`. -/

variable {Color : Type} [DecidableEq Color]

/-- The loop of `are_all_colors_on_face_same`, with the running
`sample_color` made explicit. -/
def colors_loop (normal : Vec3) (sample_color : Option Color) :
    List (Vec3 × Color) → Bool
  | [] => true
  | (translation, color) :: rest =>
    if normal.dot translation = 1 + CUBIE_FACE_OFFSET then
      match sample_color with
      | some sample => if sample ≠ color then false else colors_loop normal (some sample) rest
      | none => colors_loop normal (some color) rest
    else
      colors_loop normal sample_color rest

/-- `cube.rs`: `are_all_colors_on_face_same`. -/
def are_all_colors_on_face_same (face : Face) (cubie_faces : List (Vec3 × Color)) : Bool :=
  colors_loop face.normal none cubie_faces

/-- The stickers the detector considers for a face: those whose world
position dotted with the face normal equals `1.0 + CUBIE_FACE_OFFSET`
exactly. -/
def matching_colors (face : Face) (cubie_faces : List (Vec3 × Color)) : List Color :=
  (cubie_faces.filter fun s => face.normal.dot s.1 = 1 + CUBIE_FACE_OFFSET).map Prod.snd

/-- A list of colors is uniform when every element equals the first
(vacuously true for the empty list). -/
def all_same : List Color → Bool
  | [] => true
  | c :: rest => rest.all fun x => decide (x = c)

/-- `cube.rs`: `check_cube_solved` for one tick: the new value of the
`IsCubeSolved` resource, given the `RotationTimer` state, the stickers and
the previous flag.  The loop over `Face::flat_faces` with early `break`
is an `all`. -/
def check_cube_solved (timer : Timer) (cubie_faces : List (Vec3 × Color))
    (flag : Bool) : Bool :=
  if timer.finished then
    Face.flat_faces.all fun face => are_all_colors_on_face_same face cubie_faces
  else
    flag

end SolvedDetector

/-- `main.rs`: the `PlayMode` resource. -/
inductive PlayMode where
  | NoMode
  | Shuffle
  | Solve
deriving DecidableEq, Repr

/-- `main.rs`: the `handle_play_mode` system for one tick, with the two
uniform draws of `Rotation::random` made explicit. -/
def handle_play_mode (mode : PlayMode) (f : Fin 8) (d : Fin 2)
    (rotations : Rotations) : Rotations :=
  match mode with
  | .NoMode => rotations
  | .Shuffle =>
    if rotations.is_queue_empty && decide (rotations.current_remaining = 0) then
      rotations.enqueue (Move.random f d)
    else
      rotations
  | .Solve => rotations

/-- The invariant maintained on the `Rotations` resource: no remaining
angle without a current move, and with a current move the remaining angle
lies between `0` and a full quarter turn on the side given by the move's
direction. -/
def scheduler_invariant (s : Rotations) : Prop :=
  (s.current = none → s.current_remaining = 0) ∧
  ∀ r, s.current = some r →
    0 ≤ s.current_remaining * r.direction.signum ∧
    |s.current_remaining| ≤ ONE_ROTATION_RADIANS

/-- A concrete instance of the external math, used to exercise theorems
quantified over `ExternalMath` at a specific input. -/
def trivialExt : ExternalMath :=
  ⟨fun _ _ => Quat.identity, fun _ => (0, 0, 0), fun _ => Quat.identity⟩

/-- Trace: from the initial resources, enqueue the move (Top, Forward)
and tick for 0.5 s; the timer wraps and the move is loaded. -/
def loaded_trace : World :=
  world_tick (1 / 2) ⟨initial_world.timer, initial_world.rotations.enqueue ⟨.Top, .Forward⟩⟩

/-- Trace: after `loaded_trace`, one tick of 1 s completes the quarter
turn; the queue is empty so nothing is loaded, and `current` still holds
the completed move with remaining angle 0. -/
def completed_trace : World := world_tick 1 loaded_trace

/-- Trace: one idle tick of 0.25 s from the initial world; the repeating
0.5 s timer has not wrapped, so its `finished` flag is false. -/
def idle_quarter_world : World := world_tick (1 / 4) initial_world

/-- Stickers (world position, color) for which the Top face has two
matching stickers of different colors, so a recomputation of the solved
flag would yield false. -/
def mixed_stickers : List (Vec3 × ℕ) :=
  [(⟨0, 149 / 100, 0⟩, 0), (⟨1 / 2, 149 / 100, 0⟩, 1)]

/-! ## Theorems -/

theorem one_rotation_radians_pos : 0 < ONE_ROTATION_RADIANS := by
  norm_num [ONE_ROTATION_RADIANS]

/-- The scheduler/timer half of `apply_rotations` agrees with
`world_tick`: the `Rotations` and `Timer` evolution depends neither on
the external math nor on the cubie transforms. -/
theorem apply_rotations_world_tick (ext : ExternalMath) (delta : ℚ) (w : World)
    (cubies : List Transform) :
    (apply_rotations ext delta w cubies).1 = world_tick delta w := by
  cases h : w.rotations.current <;>
    simp [apply_rotations, apply_rotation_stage, world_tick, h]

/-- **C1.** For every piece position and every move: if the move's face is
flat, the piece is selected for rotation iff the dot product of its
translation with the face normal is ≥ 1.0; if the move's face is a center
slice, the piece is selected iff that dot product lies in the closed
interval [0.0, 0.5]. -/
theorem c1_face_membership (t : Vec3) (f : Face) :
    (f.is_center = false →
      (should_rotate_cubie t f.normal f.is_center = true ↔ 1 ≤ t.dot f.normal)) ∧
    (f.is_center = true →
      (should_rotate_cubie t f.normal f.is_center = true ↔
        0 ≤ t.dot f.normal ∧ t.dot f.normal ≤ 1 / 2)) := by
  constructor <;> intro h <;> simp [should_rotate_cubie, h, ge_iff_le, and_comm]

theorem c1_face_membership_witness :
    should_rotate_cubie ⟨1, 1, 1⟩ Face.Top.normal Face.Top.is_center = true ∧
    should_rotate_cubie ⟨1, 0, 1⟩ Face.HorizontalCentre.normal
      Face.HorizontalCentre.is_center = true :=
  ⟨((c1_face_membership ⟨1, 1, 1⟩ Face.Top).1 (by decide)).mpr
      (by norm_num [Vec3.dot, Face.normal, Vec3.unitY]),
   ((c1_face_membership ⟨1, 0, 1⟩ Face.HorizontalCentre).2 (by decide)).mpr
      (by norm_num [Vec3.dot, Face.normal, Vec3.unitY])⟩

/-- **C6.** For all integer coordinates (x, y, z) each in {-1, 0, 1}:
`from_coordinates` returns nothing exactly when x = y = z = 0; otherwise
it returns exactly one of Centre, Corner, or Edge (at most one since the
result is a single `Option Kind` value): Centre iff exactly one axis is
nonzero with |x|+|y|+|z| = 1, Corner iff all three absolute coordinates
are equal (and nonzero), and Edge otherwise. -/
theorem c6_kind_classification (x y z : ℤ)
    (hx : -1 ≤ x ∧ x ≤ 1) (hy : -1 ≤ y ∧ y ≤ 1) (hz : -1 ≤ z ∧ z ≤ 1) :
    (Kind.from_coordinates x y z = none ↔ x = 0 ∧ y = 0 ∧ z = 0) ∧
    (Kind.from_coordinates x y z = some .Centre ↔
      ((x ≠ 0 ∧ y = 0 ∧ z = 0) ∨ (x = 0 ∧ y ≠ 0 ∧ z = 0) ∨ (x = 0 ∧ y = 0 ∧ z ≠ 0)) ∧
        |x| + |y| + |z| = 1) ∧
    (Kind.from_coordinates x y z = some .Corner ↔
      (|x| = |y| ∧ |y| = |z| ∧ ¬(x = 0 ∧ y = 0 ∧ z = 0))) ∧
    (Kind.from_coordinates x y z = some .Edge ↔
      (¬(x = 0 ∧ y = 0 ∧ z = 0) ∧ |x| + |y| + |z| ≠ 1 ∧ ¬(|x| = |y| ∧ |x| = |z|))) := by
  obtain ⟨hx1, hx2⟩ := hx
  obtain ⟨hy1, hy2⟩ := hy
  obtain ⟨hz1, hz2⟩ := hz
  interval_cases x <;> interval_cases y <;> interval_cases z <;> decide

theorem c6_kind_classification_witness :
    Kind.from_coordinates 1 1 0 = some Kind.Edge :=
  (c6_kind_classification 1 1 0 (by decide) (by decide) (by decide)).2.2.2.mpr (by decide)

theorem colors_loop_some_eq {Color : Type} [DecidableEq Color] (normal : Vec3)
    (sample : Color) (l : List (Vec3 × Color)) :
    colors_loop normal (some sample) l =
      ((l.filter fun s => normal.dot s.1 = 1 + CUBIE_FACE_OFFSET).map Prod.snd).all
        fun x => decide (x = sample) := by
  induction l with
  | nil => rfl
  | cons head rest ih =>
    obtain ⟨t, c⟩ := head
    by_cases h : normal.dot t = 1 + CUBIE_FACE_OFFSET
    · by_cases hc : sample = c
      · subst hc
        simp [colors_loop, h, ih]
      · simp [colors_loop, h, hc, Ne.symm hc]
    · simp [colors_loop, h, ih]

theorem colors_loop_none_eq {Color : Type} [DecidableEq Color] (normal : Vec3)
    (l : List (Vec3 × Color)) :
    colors_loop normal none l =
      all_same ((l.filter fun s => normal.dot s.1 = 1 + CUBIE_FACE_OFFSET).map Prod.snd) := by
  induction l with
  | nil => rfl
  | cons head rest ih =>
    obtain ⟨t, c⟩ := head
    by_cases h : normal.dot t = 1 + CUBIE_FACE_OFFSET
    · simp [colors_loop, h, all_same, colors_loop_some_eq]
    · simp [colors_loop, h, ih]

/-- **C9.** For every flat face, the per-face solved check considers
exactly the stickers whose world position dotted with the face normal
equals 1.0 + 0.49 under strict (here: exact rational) equality — the
result is determined by the uniformity of that filtered color list — and
a face for which zero stickers satisfy this equality is reported as
solved (the check returns true when no sticker matches). -/
theorem c9_face_check {Color : Type} [DecidableEq Color] (face : Face)
    (stickers : List (Vec3 × Color)) :
    are_all_colors_on_face_same face stickers = all_same (matching_colors face stickers) ∧
    (matching_colors face stickers = [] → are_all_colors_on_face_same face stickers = true) := by
  have h : are_all_colors_on_face_same face stickers =
      all_same (matching_colors face stickers) := by
    rw [are_all_colors_on_face_same, matching_colors, colors_loop_none_eq]
  refine ⟨h, fun he => ?_⟩
  rw [h, he]
  rfl

theorem c9_face_check_witness :
    are_all_colors_on_face_same Face.Top ([(⟨0, 0, 0⟩, 7)] : List (Vec3 × ℕ)) = true ∧
    matching_colors Face.Top ([(⟨0, 0, 0⟩, 7)] : List (Vec3 × ℕ)) = [] := by
  have he : matching_colors Face.Top ([(⟨0, 0, 0⟩, 7)] : List (Vec3 × ℕ)) = [] := by
    norm_num [matching_colors, Vec3.dot, Face.normal, Vec3.unitY, CUBIE_FACE_OFFSET]
  exact ⟨(c9_face_check Face.Top ([(⟨0, 0, 0⟩, 7)] : List (Vec3 × ℕ))).2 he, he⟩

/-- **C7.** In Shuffle play mode, on every tick where the pending queue is
empty and the remaining angle equals 0, exactly one random move is
enqueued, and the sampling is uniform: each of the 8 faces is hit by
exactly one of the 8 equiprobable draws (probability 1/8) and each of the
2 directions by exactly one of the 2 equiprobable draws (probability
1/2); on ticks where the queue is non-empty or a move is in progress
(and in the other play modes), nothing is enqueued. -/
theorem c7_shuffle_feed (f : Fin 8) (d : Fin 2) (rots : Rotations) :
    (rots.queue = [] → rots.current_remaining = 0 →
      (handle_play_mode .Shuffle f d rots).queue = [Move.random f d]) ∧
    (¬(rots.queue = [] ∧ rots.current_remaining = 0) →
      handle_play_mode .Shuffle f d rots = rots) ∧
    (∀ mode, mode = PlayMode.NoMode ∨ mode = PlayMode.Solve →
      handle_play_mode mode f d rots = rots) ∧
    (∀ face : Face, (Finset.univ.filter fun i : Fin 8 => Face.sample i = face).card = 1) ∧
    (∀ dir : Direction,
      (Finset.univ.filter fun i : Fin 2 => Direction.sample i = dir).card = 1) := by
  refine ⟨fun hq hr => ?_, fun h => ?_, fun mode hm => ?_, by decide, by decide⟩
  · simp [handle_play_mode, Rotations.is_queue_empty, hq, hr, Rotations.enqueue]
  · by_cases hq : rots.queue = []
    · by_cases hr : rots.current_remaining = 0
      · exact absurd ⟨hq, hr⟩ h
      · simp [handle_play_mode, hr]
    · simp [handle_play_mode, Rotations.is_queue_empty, hq]
  · rcases hm with rfl | rfl <;> rfl

theorem c7_shuffle_feed_witness :
    (handle_play_mode .Shuffle 1 1 (Rotations.new none [])).queue =
      [⟨Face.Top, Direction.Forward⟩] :=
  (c7_shuffle_feed 1 1 (Rotations.new none [])).1 (by decide) (by decide)

theorem rustRound_close (q : ℚ) : |q - rustRound q| ≤ 1 / 2 := by
  rw [rustRound]
  rcases le_or_lt 0 q with h | h
  · rw [if_pos h]
    have h1 := Int.floor_le (q + 1 / 2)
    have h2 := Int.lt_floor_add_one (q + 1 / 2)
    rw [abs_le]
    constructor <;> push_cast at * <;> linarith
  · rw [if_neg (not_le.mpr h)]
    have h1 := Int.floor_le (-q + 1 / 2)
    have h2 := Int.lt_floor_add_one (-q + 1 / 2)
    rw [abs_le]
    constructor <;> push_cast at * <;> linarith

theorem round_to_quarter_nearest (a : ℚ) :
    (∃ k : ℤ, round_to_quarter a = k * ONE_ROTATION_RADIANS) ∧
    |a - round_to_quarter a| ≤ ONE_ROTATION_RADIANS / 2 := by
  refine ⟨⟨rustRound (a / ONE_ROTATION_RADIANS), rfl⟩, ?_⟩
  have hQ : (0 : ℚ) < ONE_ROTATION_RADIANS := one_rotation_radians_pos
  have h := rustRound_close (a / ONE_ROTATION_RADIANS)
  rw [round_to_quarter]
  have key : a - (rustRound (a / ONE_ROTATION_RADIANS) : ℚ) * ONE_ROTATION_RADIANS =
      (a / ONE_ROTATION_RADIANS - (rustRound (a / ONE_ROTATION_RADIANS) : ℚ)) *
        ONE_ROTATION_RADIANS := by
    field_simp
    ring
  rw [key, abs_mul, abs_of_pos hQ]
  calc |a / ONE_ROTATION_RADIANS - (rustRound (a / ONE_ROTATION_RADIANS) : ℚ)| *
        ONE_ROTATION_RADIANS
      ≤ 1 / 2 * ONE_ROTATION_RADIANS := by
        exact mul_le_mul_of_nonneg_right h (le_of_lt hQ)
    _ = ONE_ROTATION_RADIANS / 2 := by ring

theorem snap_coordinate_spec (c : ℚ) :
    (|c| < 1 / 2 → snap_coordinate c = 0) ∧
    (1 / 2 ≤ |c| → snap_coordinate c = rustSignum c) ∧
    (snap_coordinate c = -1 ∨ snap_coordinate c = 0 ∨ snap_coordinate c = 1) := by
  refine ⟨fun h => by rw [snap_coordinate, if_pos h],
    fun h => by rw [snap_coordinate, if_neg (not_lt.mpr h)], ?_⟩
  rw [snap_coordinate, rustSignum]
  split_ifs <;> tauto

/-- **C2.** On the tick in which a move's remaining angle reaches exactly
0 after the applied step, every selected piece's transform is snapped in
that same tick: the piece at each index, if selected, comes out as the
snap of its rotated transform, where the snap maps each translation
component with absolute value < 0.5 to 0 and every other component to its
sign (so components land in {-1, 0, 1}), and converts the orientation to
XYZ Euler angles, rounds each angle to the nearest multiple of 90°
(`ONE_ROTATION_RADIANS`), and reconstructs the quaternion from the
rounded angles (via the external library's conversions, parameters of the
model). -/
theorem c2_completion_snap (ext : ExternalMath) (delta : ℚ) (s : Rotations)
    (cubies : List Transform) (r : Move) (i : ℕ) (t : Transform)
    (hcur : s.current = some r)
    (hdone : s.current_remaining - rotation_step s.current_remaining delta = 0)
    (ht : cubies[i]? = some t)
    (hsel : should_rotate_cubie t.translation r.face.normal r.face.is_center = true) :
    ((apply_rotation_stage ext delta s cubies).2)[i]? =
      some (snap_cubie_to_grid ext
        (t.rotate_around r.face.normal
          (ext.fromAxisAngle r.face.normal (rotation_step s.current_remaining delta)))) ∧
    (∀ v : Vec3, snapped_translation v =
      ⟨snap_coordinate v.x, snap_coordinate v.y, snap_coordinate v.z⟩) ∧
    (∀ c : ℚ, (|c| < 1 / 2 → snap_coordinate c = 0) ∧
      (1 / 2 ≤ |c| → snap_coordinate c = rustSignum c) ∧
      (snap_coordinate c = -1 ∨ snap_coordinate c = 0 ∨ snap_coordinate c = 1)) ∧
    (∀ q : Quat, snapped_rotation ext q =
      ext.fromEuler (round_to_quarter (ext.toEuler q).1,
        round_to_quarter (ext.toEuler q).2.1, round_to_quarter (ext.toEuler q).2.2)) ∧
    (∀ a : ℚ, (∃ k : ℤ, round_to_quarter a = k * ONE_ROTATION_RADIANS) ∧
      |a - round_to_quarter a| ≤ ONE_ROTATION_RADIANS / 2) := by
  have hstep : s.current_remaining = rotation_step s.current_remaining delta :=
    sub_eq_zero.mp hdone
  refine ⟨?_, fun v => rfl, snap_coordinate_spec, fun q => rfl, round_to_quarter_nearest⟩
  simp only [apply_rotation_stage, hcur, List.getElem?_map, ht, Option.map_some']
  rw [if_pos hsel, if_pos hstep]

theorem c2_completion_snap_witness :
    ONE_ROTATION_RADIANS - rotation_step ONE_ROTATION_RADIANS 1 = 0 ∧
    ((apply_rotation_stage trivialExt 1
        ⟨some ⟨Face.Top, Direction.Forward⟩, ONE_ROTATION_RADIANS, []⟩
        [⟨⟨1, 1, 1⟩, Quat.identity⟩]).2)[0]? =
      some (snap_cubie_to_grid trivialExt
        ((⟨⟨1, 1, 1⟩, Quat.identity⟩ : Transform).rotate_around Face.Top.normal
          (trivialExt.fromAxisAngle Face.Top.normal
            (rotation_step ONE_ROTATION_RADIANS 1)))) := by
  have hdone : ONE_ROTATION_RADIANS - rotation_step ONE_ROTATION_RADIANS 1 = 0 := by
    have habs : |(13176795 / 8388608 : ℚ)| = 13176795 / 8388608 :=
      abs_of_pos (by norm_num)
    norm_num [rotation_step, rustSignum, ROTATION_SPEED, min_def, habs, ONE_ROTATION_RADIANS]
  have hsel : should_rotate_cubie (⟨1, 1, 1⟩ : Vec3) Face.Top.normal
      Face.Top.is_center = true := by
    norm_num [should_rotate_cubie, Face.is_center, Vec3.dot, Face.normal, Vec3.unitY]
  exact ⟨hdone,
    (c2_completion_snap trivialExt 1
      ⟨some ⟨Face.Top, Direction.Forward⟩, ONE_ROTATION_RADIANS, []⟩
      [⟨⟨1, 1, 1⟩, Quat.identity⟩] ⟨Face.Top, Direction.Forward⟩ 0
      ⟨⟨1, 1, 1⟩, Quat.identity⟩ rfl hdone rfl hsel).1⟩

/-- Bounds for the angular step: with a non-negative frame delta, the
step lies between `0` and the remaining angle (inclusive), on whichever
side of `0` the remaining angle lies. -/
theorem rotation_step_range (remaining delta : ℚ) (hdelta : 0 ≤ delta) :
    (0 ≤ remaining →
      0 ≤ rotation_step remaining delta ∧ rotation_step remaining delta ≤ remaining) ∧
    (remaining < 0 →
      remaining ≤ rotation_step remaining delta ∧ rotation_step remaining delta ≤ 0) := by
  have hc : 0 ≤ ONE_ROTATION_RADIANS * delta * ROTATION_SPEED :=
    mul_nonneg (mul_nonneg (le_of_lt one_rotation_radians_pos) hdelta)
      (by norm_num [ROTATION_SPEED])
  constructor
  · intro h
    rw [rotation_step, rustSignum, if_neg (not_lt.mpr h), abs_of_nonneg h, mul_one]
    exact ⟨le_min hc h, min_le_right _ _⟩
  · intro h
    rw [rotation_step, rustSignum, if_pos h, abs_of_neg h]
    have h1 : 0 ≤ min (ONE_ROTATION_RADIANS * delta * ROTATION_SPEED) (-remaining) :=
      le_min hc (by linarith)
    have h2 : min (ONE_ROTATION_RADIANS * delta * ROTATION_SPEED) (-remaining) ≤
        -remaining := min_le_right _ _
    constructor <;> rw [mul_neg_one] <;> linarith

theorem load_next_invariant (s : Rotations) (hrem : s.current_remaining = 0) :
    scheduler_invariant s.load_next_rotation := by
  rw [Rotations.load_next_rotation]
  cases hq : s.queue with
  | nil =>
    exact ⟨fun _ => hrem, fun r hr => by simp at hr⟩
  | cons a l =>
    refine ⟨fun hnone => by simp at hnone, fun r hr => ?_⟩
    simp only [List.head?] at hr
    obtain rfl : a = r := by simpa using hr
    have habs : |ONE_ROTATION_RADIANS| = ONE_ROTATION_RADIANS :=
      abs_of_pos one_rotation_radians_pos
    obtain ⟨f, d⟩ := a
    cases d
    · exact ⟨by norm_num [Direction.signum, ONE_ROTATION_RADIANS],
        by simp [Direction.signum, habs]⟩
    · exact ⟨by norm_num [Direction.signum, ONE_ROTATION_RADIANS],
        by simp [Direction.signum, habs]⟩

theorem load_stage_invariant (delta : ℚ) (timer : Timer) (s : Rotations)
    (h : scheduler_invariant s) :
    scheduler_invariant (load_stage delta timer s).2 := by
  simp only [load_stage]
  split_ifs with h0 hj
  · exact load_next_invariant s h0
  · exact h
  · exact h

theorem progress_invariant (delta : ℚ) (hdelta : 0 ≤ delta) (s : Rotations) (r : Move)
    (hc : s.current = some r) (h : scheduler_invariant s) :
    scheduler_invariant
      (s.progress_current_rotation (rotation_step s.current_remaining delta)) := by
  obtain ⟨hsign, hmag⟩ := h.2 r hc
  have hrange := rotation_step_range s.current_remaining delta hdelta
  constructor
  · intro hnone
    have h0 : s.current = none := hnone
    rw [hc] at h0
    exact absurd h0 (by simp)
  · intro r' hr'
    have h0 : s.current = some r' := hr'
    rw [hc] at h0
    obtain rfl : r = r' := by injection h0
    show 0 ≤ (s.current_remaining - rotation_step s.current_remaining delta) *
        r.direction.signum ∧
      |s.current_remaining - rotation_step s.current_remaining delta| ≤
        ONE_ROTATION_RADIANS
    cases hd : r.direction <;> rw [hd] at hsign <;>
      simp only [Direction.signum, mul_one, mul_neg_one] at hsign ⊢
    · -- Forward: 0 ≤ remaining
      obtain ⟨h1, h2⟩ := hrange.1 hsign
      have habs : |s.current_remaining| = s.current_remaining := abs_of_nonneg hsign
      rw [habs] at hmag
      refine ⟨by linarith, ?_⟩
      rw [abs_of_nonneg (by linarith)]
      linarith
    · -- Backward: remaining ≤ 0
      have hle : s.current_remaining ≤ 0 := by linarith
      have habs : |s.current_remaining| = -s.current_remaining := abs_of_nonpos hle
      rw [habs] at hmag
      rcases eq_or_lt_of_le hle with he | hlt
      · obtain ⟨h1, h2⟩ := hrange.1 (le_of_eq he.symm)
        refine ⟨by linarith, ?_⟩
        rw [abs_of_nonpos (by linarith)]
        linarith
      · obtain ⟨h1, h2⟩ := hrange.2 hlt
        refine ⟨by linarith, ?_⟩
        rw [abs_of_nonpos (by linarith)]
        linarith

theorem world_tick_invariant (delta : ℚ) (hdelta : 0 ≤ delta) (w : World)
    (h : scheduler_invariant w.rotations) :
    scheduler_invariant (world_tick delta w).rotations := by
  rw [world_tick]
  cases hc : w.rotations.current with
  | none =>
    simp only [hc]
    exact load_stage_invariant delta w.timer w.rotations h
  | some r =>
    simp only [hc]
    exact load_stage_invariant delta w.timer _
      (progress_invariant delta hdelta w.rotations r hc h)

theorem reachable_invariant (w : World) (h : Reachable w) :
    scheduler_invariant w.rotations := by
  induction h with
  | init =>
    exact ⟨fun _ => rfl, fun r hr => by simp [initial_world, Rotations.new] at hr⟩
  | enqueue r hw ih =>
    exact ⟨ih.1, ih.2⟩
  | tick delta hdelta hw ih =>
    exact world_tick_invariant delta hdelta _ ih

/-- **C3 (amended).** For every reachable scheduler state with a move
loaded as current: the remaining angle, multiplied by the move's
direction sign, is non-negative (the sign matches the direction except
that the remaining angle may be 0 — in particular it is 0 once the move
has completed while still held as current); its magnitude stays in
[0, `ONE_ROTATION_RADIANS`]; and on every tick of the rotation stage of
`apply_rotations` with a positive frame delta, while the remaining angle
is nonzero, its magnitude strictly decreases. -/
theorem c3_remaining_invariant (w : World) (hw : Reachable w) (r : Move)
    (hcur : w.rotations.current = some r) :
    0 ≤ w.rotations.current_remaining * r.direction.signum ∧
    |w.rotations.current_remaining| ≤ ONE_ROTATION_RADIANS ∧
    ∀ delta : ℚ, 0 < delta → w.rotations.current_remaining ≠ 0 →
      ∀ (ext : ExternalMath) (cubies : List Transform),
        |(apply_rotation_stage ext delta w.rotations cubies).1.current_remaining| <
          |w.rotations.current_remaining| := by
  obtain ⟨hsign, hmag⟩ := (reachable_invariant w hw).2 r hcur
  refine ⟨hsign, hmag, fun delta hdelta hne ext cubies => ?_⟩
  have hstage : (apply_rotation_stage ext delta w.rotations cubies).1 =
      w.rotations.progress_current_rotation
        (rotation_step w.rotations.current_remaining delta) := by
    simp [apply_rotation_stage, hcur]
  rw [hstage]
  show |w.rotations.current_remaining -
      rotation_step w.rotations.current_remaining delta| <
    |w.rotations.current_remaining|
  set rem := w.rotations.current_remaining with hrem
  have hcpos : 0 < ONE_ROTATION_RADIANS * delta * ROTATION_SPEED :=
    mul_pos (mul_pos one_rotation_radians_pos hdelta) (by norm_num [ROTATION_SPEED])
  rcases lt_trichotomy rem 0 with hneg | hzero | hpos
  · -- remaining < 0: the step is negative and at least the remaining angle
    rw [rotation_step, rustSignum, if_pos hneg, abs_of_neg hneg, mul_neg_one]
    have h1 : 0 < min (ONE_ROTATION_RADIANS * delta * ROTATION_SPEED) (-rem) :=
      lt_min hcpos (by linarith)
    have h2 : min (ONE_ROTATION_RADIANS * delta * ROTATION_SPEED) (-rem) ≤ -rem :=
      min_le_right _ _
    have h3 : rem - -min (ONE_ROTATION_RADIANS * delta * ROTATION_SPEED) (-rem) ≤ 0 := by
      linarith
    rw [abs_of_nonpos h3]
    linarith
  · exact absurd hzero hne
  · -- remaining > 0
    rw [rotation_step, rustSignum, if_neg (not_lt.mpr (le_of_lt hpos)),
      abs_of_pos hpos, mul_one]
    have h1 : 0 < min (ONE_ROTATION_RADIANS * delta * ROTATION_SPEED) rem :=
      lt_min hcpos hpos
    have h2 : min (ONE_ROTATION_RADIANS * delta * ROTATION_SPEED) rem ≤ rem :=
      min_le_right _ _
    have h3 : 0 ≤ rem - min (ONE_ROTATION_RADIANS * delta * ROTATION_SPEED) rem := by
      linarith
    rw [abs_of_nonneg h3]
    linarith

theorem loaded_trace_eval :
    loaded_trace =
      ⟨⟨1 / 2, 0, true, 1⟩, ⟨some ⟨.Top, .Forward⟩, ONE_ROTATION_RADIANS, []⟩⟩ := by
  norm_num [loaded_trace, world_tick, initial_world, Rotations.new, Rotations.enqueue,
    load_stage, Timer.from_seconds, Timer.tick, Timer.just_finished,
    Rotations.is_queue_empty, Rotations.load_next_rotation, Direction.signum]

theorem completed_trace_eval :
    completed_trace = ⟨⟨1 / 2, 0, true, 2⟩, ⟨some ⟨.Top, .Forward⟩, 0, []⟩⟩ := by
  have habs : |(13176795 / 8388608 : ℚ)| = 13176795 / 8388608 :=
    abs_of_pos (by norm_num)
  rw [completed_trace, loaded_trace_eval]
  norm_num [world_tick, rotation_step, rustSignum, habs, Rotations.progress_current_rotation,
    load_stage, Timer.tick, Timer.just_finished, Rotations.is_queue_empty, min_def,
    ONE_ROTATION_RADIANS, ROTATION_SPEED, Int.toNat]

theorem reachable_loaded_trace : Reachable loaded_trace :=
  .tick (1 / 2) (by norm_num) (.enqueue ⟨.Top, .Forward⟩ .init)

theorem reachable_completed_trace : Reachable completed_trace :=
  .tick 1 (by norm_num) reachable_loaded_trace

theorem c3_remaining_invariant_witness :
    Reachable loaded_trace ∧
    loaded_trace.rotations.current = some ⟨.Top, .Forward⟩ ∧
    0 ≤ loaded_trace.rotations.current_remaining * Direction.Forward.signum := by
  have hcur : loaded_trace.rotations.current = some ⟨.Top, .Forward⟩ := by
    rw [loaded_trace_eval]
  exact ⟨reachable_loaded_trace, hcur,
    (c3_remaining_invariant loaded_trace reachable_loaded_trace ⟨.Top, .Forward⟩ hcur).1⟩

/-- **C3 (counterexample).** A reachable scheduler state that holds a
move as current (direction Forward, sign +1) while the remaining angle is
0 (sign 0): after a move completes with an empty queue,
`load_next_rotation` is never called and `current` keeps the completed
move, so the claimed sign equality fails for this reachable state. -/
theorem c3_sign_counterexample :
    Reachable completed_trace ∧
    completed_trace.rotations.current = some ⟨.Top, .Forward⟩ ∧
    Direction.signum .Forward = 1 ∧
    ¬(0 < completed_trace.rotations.current_remaining) := by
  refine ⟨reachable_completed_trace, ?_, rfl, ?_⟩
  · rw [completed_trace_eval]
  · rw [completed_trace_eval]
    norm_num

/-- **C4 (amended).** Once the remaining angle reaches 0 with an empty
pending list, every further tick (with non-negative delta) leaves the
scheduler idle: the remaining angle stays 0, the queue stays empty, and
no new move is loaded — but the `current` field is left holding the
just-completed move (it is not cleared to none; see the counterexample)
until a new move is enqueued and loaded. -/
theorem c4_idle_persistence (w : World) (delta : ℚ) (hdelta : 0 ≤ delta)
    (hq : w.rotations.queue = []) (hrem : w.rotations.current_remaining = 0) :
    (world_tick delta w).rotations.current = w.rotations.current ∧
    (world_tick delta w).rotations.current_remaining = 0 ∧
    (world_tick delta w).rotations.queue = [] := by
  have hstep : rotation_step w.rotations.current_remaining delta = 0 := by
    rw [hrem, rotation_step, rustSignum]
    have hc : 0 ≤ ONE_ROTATION_RADIANS * delta * ROTATION_SPEED :=
      mul_nonneg (mul_nonneg (le_of_lt one_rotation_radians_pos) hdelta)
        (by norm_num [ROTATION_SPEED])
    simp [min_eq_right, hc, abs_of_nonneg]
  have hempty : w.rotations.is_queue_empty = true := by
    rw [Rotations.is_queue_empty, hq]
    rfl
  rw [hrem] at hstep
  rw [world_tick]
  cases hc : w.rotations.current with
  | none =>
    simp [hc, load_stage, hrem, hempty, hq]
  | some r =>
    simp [hc, load_stage, Rotations.progress_current_rotation, hstep, hrem, hempty, hq,
      Rotations.is_queue_empty]

theorem c4_idle_persistence_witness :
    (world_tick (1 / 4)
        ⟨Timer.from_seconds (1 / 2), ⟨some ⟨.Top, .Forward⟩, 0, []⟩⟩).rotations.current =
      some ⟨.Top, .Forward⟩ ∧
    Rotations.current_remaining
      (world_tick (1 / 4)
        ⟨Timer.from_seconds (1 / 2), ⟨some ⟨.Top, .Forward⟩, 0, []⟩⟩).rotations = 0 := by
  have h := c4_idle_persistence
    ⟨Timer.from_seconds (1 / 2), ⟨some ⟨.Top, .Forward⟩, 0, []⟩⟩ (1 / 4)
    (by norm_num) rfl rfl
  exact ⟨h.1, h.2.1⟩

/-- **C4 (counterexample).** A reachable state in which the remaining
angle has reached 0 with an empty pending list, yet `current` is not
none: the scheduler keeps the completed move loaded instead of clearing
it. -/
theorem c4_stale_current_counterexample :
    Reachable completed_trace ∧
    completed_trace.rotations.queue = [] ∧
    completed_trace.rotations.current_remaining = 0 ∧
    completed_trace.rotations.current ≠ none := by
  refine ⟨reachable_completed_trace, ?_, ?_, ?_⟩
  all_goals rw [completed_trace_eval]
  all_goals simp

/-- On a tick whose remaining angle is 0 (with non-negative delta), the
timer is ticked: the post-tick timer is `timer.tick delta`, whether or
not a (completed) move is still held as current. -/
theorem world_tick_timer_of_idle (w : World) (delta : ℚ) (hdelta : 0 ≤ delta)
    (hrem : w.rotations.current_remaining = 0) :
    (world_tick delta w).timer = w.timer.tick delta := by
  have hstep : rotation_step w.rotations.current_remaining delta = 0 := by
    rw [hrem, rotation_step, rustSignum]
    have hc : 0 ≤ ONE_ROTATION_RADIANS * delta * ROTATION_SPEED :=
      mul_nonneg (mul_nonneg (le_of_lt one_rotation_radians_pos) hdelta)
        (by norm_num [ROTATION_SPEED])
    simp [min_eq_right, hc, abs_of_nonneg]
  rw [hrem] at hstep
  rw [world_tick]
  cases hc : w.rotations.current with
  | none =>
    simp only [hc, load_stage, hrem, if_pos]
    split_ifs <;> rfl
  | some r =>
    simp only [hc, load_stage, Rotations.progress_current_rotation, hrem, hstep, sub_zero,
      if_pos]
    split_ifs <;> rfl

theorem idle_quarter_world_eval :
    idle_quarter_world = ⟨⟨1 / 2, 1 / 4, false, 0⟩, ⟨none, 0, []⟩⟩ := by
  norm_num [idle_quarter_world, world_tick, initial_world, Rotations.new, load_stage,
    Timer.from_seconds, Timer.tick, Timer.just_finished, Rotations.is_queue_empty]

/-- **C5 (counterexample).** A reachable idle tick (no move in flight) on
which the solved flag is *not* recomputed: the repeating timer has not
wrapped yet (`finished = false`), so `check_cube_solved` keeps the stale
flag `true` even though recomputation over the stickers would yield
`false` — refuting "recomputed on every idle tick". -/
theorem c5_idle_tick_counterexample :
    Reachable idle_quarter_world ∧
    idle_quarter_world.rotations.current = none ∧
    (Face.flat_faces.all fun face => are_all_colors_on_face_same face mixed_stickers)
      = false ∧
    check_cube_solved idle_quarter_world.timer mixed_stickers true = true := by
  refine ⟨.tick (1 / 4) (by norm_num) .init, ?_, ?_, ?_⟩
  · rw [idle_quarter_world_eval]
  · norm_num [Face.flat_faces, are_all_colors_on_face_same, colors_loop, mixed_stickers,
      Vec3.dot, Face.normal, Vec3.unitX, Vec3.unitY, Vec3.unitZ, Vec3.neg,
      CUBIE_FACE_OFFSET]
  · rw [idle_quarter_world_eval]
    rfl

/-- **C5 (amended).** The solved flag is recomputed exactly on ticks
where the rotation timer's stored `finished` flag is set, and kept
otherwise: (1) with the timer not finished, the flag is unchanged;
(2) with the timer finished, the flag is recomputed as the conjunction,
over the six flat faces, of the uniformity of the matching stickers'
colors; (3) on a tick with remaining angle 0 and the 0.5 s repeating
timer, the post-tick finished flag is set iff elapsed + delta reaches
0.5 s — so idle ticks between wraps do not recompute; (4) while a move is
animating and the step leaves a nonzero remaining angle, the timer is not
ticked at all, so the stored finished flag — and with it whether the
solved check runs — persists unchanged from before the animation. -/
theorem c5_flag_update {Color : Type} [DecidableEq Color] :
    (∀ (timer : Timer) (stickers : List (Vec3 × Color)) (flag : Bool),
      timer.finished = false → check_cube_solved timer stickers flag = flag) ∧
    (∀ (timer : Timer) (stickers : List (Vec3 × Color)) (flag : Bool),
      timer.finished = true →
      check_cube_solved timer stickers flag =
        (Face.flat_faces.all fun face => all_same (matching_colors face stickers))) ∧
    (∀ (w : World) (delta : ℚ), 0 ≤ delta → w.rotations.current_remaining = 0 →
      w.timer.duration = 1 / 2 →
      ((world_tick delta w).timer.finished = true ↔ 1 / 2 ≤ w.timer.elapsed + delta)) ∧
    (∀ (w : World) (delta : ℚ) (r : Move), w.rotations.current = some r →
      w.rotations.current_remaining - rotation_step w.rotations.current_remaining delta
        ≠ 0 →
      (world_tick delta w).timer = w.timer) := by
  refine ⟨fun timer stickers flag h => ?_, fun timer stickers flag h => ?_,
    fun w delta hdelta hrem hdur => ?_, fun w delta r hc hne => ?_⟩
  · rw [check_cube_solved, h]
    rfl
  · rw [check_cube_solved, h]
    have hface : ∀ face : Face, are_all_colors_on_face_same face stickers =
        all_same (matching_colors face stickers) := fun face => by
      rw [are_all_colors_on_face_same, matching_colors, colors_loop_none_eq]
    simp only [if_true, hface]
  · rw [world_tick_timer_of_idle w delta hdelta hrem, Timer.tick, hdur]
    split_ifs with h
    · exact iff_of_true rfl h
    · simp only [Bool.false_eq_true, false_iff]
      exact h
  · rw [world_tick]
    simp only [hc, load_stage, Rotations.progress_current_rotation]
    rw [if_neg hne]

theorem c5_flag_update_witness :
    check_cube_solved ⟨1 / 2, 0, false, 0⟩ ([] : List (Vec3 × ℕ)) true = true ∧
    (world_tick (1 / 2) initial_world).timer.finished = true := by
  constructor
  · exact (@c5_flag_update ℕ _).1 ⟨1 / 2, 0, false, 0⟩ [] true rfl
  · exact ((@c5_flag_update ℕ _).2.2.1 initial_world (1 / 2) (by norm_num) rfl
      rfl).mpr (by norm_num [initial_world, Timer.from_seconds])

theorem Vec3.neg_def (a : Vec3) : -a = ⟨-a.x, -a.y, -a.z⟩ := rfl

theorem Vec3.dot_neg_right (a b : Vec3) : a.dot (-b) = -(a.dot b) := by
  show a.dot b.neg = -(a.dot b)
  simp only [Vec3.dot, Vec3.neg]
  ring

/-- Dotting a lattice vector (components in {-1, 0, 1}) with any face
normal yields -1, 0 or 1. -/
theorem dot_normal_lattice (vx vy vz : ℚ) (f : Face)
    (hx : vx = -1 ∨ vx = 0 ∨ vx = 1) (hy : vy = -1 ∨ vy = 0 ∨ vy = 1)
    (hz : vz = -1 ∨ vz = 0 ∨ vz = 1) :
    Vec3.dot ⟨vx, vy, vz⟩ f.normal = -1 ∨ Vec3.dot ⟨vx, vy, vz⟩ f.normal = 0 ∨
      Vec3.dot ⟨vx, vy, vz⟩ f.normal = 1 := by
  cases f <;>
    rcases hx with rfl | rfl | rfl <;>
    rcases hy with rfl | rfl | rfl <;>
    rcases hz with rfl | rfl | rfl <;>
    norm_num [Vec3.dot, Face.normal, Vec3.neg_def, Vec3.unitX, Vec3.unitY, Vec3.unitZ]

/-- **C10.** For every piece whose translation lies exactly on the
lattice (each coordinate in {-1, 0, 1}): the flat-face membership test
selects it iff its dot product with the face normal equals exactly 1, the
center-slice membership test selects it iff its dot product with the
slice axis equals exactly 0, and consequently no lattice-snapped piece is
ever selected by both a flat face and a center slice sharing that axis
(the slice normal equal to the face normal or its negation). -/
theorem c10_lattice_selection (vx vy vz : ℚ) (flat center : Face)
    (hx : vx = -1 ∨ vx = 0 ∨ vx = 1) (hy : vy = -1 ∨ vy = 0 ∨ vy = 1)
    (hz : vz = -1 ∨ vz = 0 ∨ vz = 1)
    (hflat : flat.is_center = false) (hcenter : center.is_center = true) :
    (should_rotate_cubie ⟨vx, vy, vz⟩ flat.normal flat.is_center = true ↔
      Vec3.dot ⟨vx, vy, vz⟩ flat.normal = 1) ∧
    (should_rotate_cubie ⟨vx, vy, vz⟩ center.normal center.is_center = true ↔
      Vec3.dot ⟨vx, vy, vz⟩ center.normal = 0) ∧
    (center.normal = flat.normal ∨ center.normal = -flat.normal →
      ¬(should_rotate_cubie ⟨vx, vy, vz⟩ flat.normal flat.is_center = true ∧
        should_rotate_cubie ⟨vx, vy, vz⟩ center.normal center.is_center = true)) := by
  have hdf := dot_normal_lattice vx vy vz flat hx hy hz
  have hdc := dot_normal_lattice vx vy vz center hx hy hz
  have h1 : should_rotate_cubie ⟨vx, vy, vz⟩ flat.normal flat.is_center = true ↔
      Vec3.dot ⟨vx, vy, vz⟩ flat.normal = 1 := by
    simp only [should_rotate_cubie, hflat, Bool.false_eq_true, if_false,
      decide_eq_true_eq, ge_iff_le]
    rcases hdf with h | h | h <;> rw [h] <;> norm_num
  have h2 : should_rotate_cubie ⟨vx, vy, vz⟩ center.normal center.is_center = true ↔
      Vec3.dot ⟨vx, vy, vz⟩ center.normal = 0 := by
    simp only [should_rotate_cubie, hcenter, if_true, Bool.and_eq_true, decide_eq_true_eq]
    rcases hdc with h | h | h <;> rw [h] <;> norm_num
  refine ⟨h1, h2, fun hn ⟨ha, hb⟩ => ?_⟩
  rw [h1] at ha
  rw [h2] at hb
  rcases hn with hn | hn
  · rw [hn, ha] at hb
    norm_num at hb
  · rw [hn, Vec3.dot_neg_right, ha] at hb
    norm_num at hb

theorem c10_lattice_selection_witness :
    should_rotate_cubie ⟨1, 0, 0⟩ Face.Right.normal Face.Right.is_center = true ∧
    ¬(should_rotate_cubie ⟨1, 0, 0⟩ Face.VerticalCentre.normal
        Face.VerticalCentre.is_center = true) := by
  have h := c10_lattice_selection 1 0 0 .Right .VerticalCentre (by norm_num)
    (by norm_num) (by norm_num) rfl rfl
  refine ⟨h.1.mpr (by norm_num [Vec3.dot, Face.normal, Vec3.unitX]), fun hsel => ?_⟩
  have h0 := h.2.1.mp hsel
  norm_num [Vec3.dot, Face.normal, Vec3.unitX] at h0

end Rubiks
